import Mathlib

/-!
Shallow embedding of the vector retrieval store (`backend/utils/retriever.py`,
class `LeaseVectorStore`) and the knowledge-base router
(`backend/agents/internal_kb_agent.py`, `InternalKBAgent.classify_question`)
of the multiagent-olair repository, together with theorems settling the
spec claims about them.

Modelling conventions:
- Python floats are modelled as real numbers (`ℝ`); float lists as `List ℝ`.
- The python dict `self.metadata` (int key -> dict value) is modelled by its
  key-to-value mapping `Nat → Option MetaDict`; a metadata value (an opaque
  python dict) is modelled as an association list `MetaDict`, with `[]`
  playing the role of the empty dict `\x7b\x7d`.
- Python exceptions are modelled by an error component: an operation that can
  raise returns `Option StoreErr × LeaseVectorStore` (error flag plus the
  state in which the raise leaves the store), or `Except StoreErr _` for
  read-only operations.
- `np.argsort` (ascending argsort) is modelled as a stable ascending sort of
  the index list `[0, …, n-1]` by score; numpy's small-array sort is an
  insertion sort, so this matches the observable behaviour on the concrete
  inputs used below.
- Persistence: a pickle file is modelled by `Option Blob` (`none` = the path
  does not exist); a `Blob` either fails to unpickle (`bad`) or yields a
  `StoreData` record whose fields are `Option`s, modelling presence/absence
  of the corresponding dict keys (`store_data.get(key, default)`).
-/

/-- A metadata value: an opaque python dict, modelled as an association list. -/
abbrev MetaDict := List (String × String)

/-- The error kinds of the spec's error taxonomy (§7). -/
inductive StoreErr where
  | dimensionMismatch
  | indexOutOfRange
  | notFound
  | corruptData
  deriving DecidableEq

/-- One search hit: the dicts `\x7b"text": …, "score": …\x7d` built by
`LeaseVectorStore.search`; the `metadata` field is present only when the
store has metadata for the hit's index. -/
@[ext] structure SearchResult where
  text : String
  score : ℝ
  metadata : Option MetaDict

/-- The state of `LeaseVectorStore`: parallel lists `self.embeddings` and
`self.texts`, plus the metadata mapping. -/
@[ext] structure LeaseVectorStore where
  embeddings : List (List ℝ)
  texts : List String
  metadata : Nat → Option MetaDict

namespace LeaseVectorStore

/-- `__init__`: the empty store. -/
def init : LeaseVectorStore :=
  { embeddings := [], texts := [], metadata := fun _ => none }

/-- `add_embeddings(embeddings, texts, metadata=None)`.  Python raises
`ValueError` on a count mismatch (the spec files this under
`DimensionMismatch`).  Note the second length check is reached only when
`metadata` is truthy (non-`None` and non-empty), and only after the two
`extend` calls have run. -/
def add_embeddings (s : LeaseVectorStore) (embeddings : List (List ℝ))
    (texts : List String) (metadata : Option (List MetaDict)) :
    Option StoreErr × LeaseVectorStore :=
  if embeddings.length ≠ texts.length then
    (some .dimensionMismatch, s)
  else
    let s1 : LeaseVectorStore :=
      { s with embeddings := s.embeddings ++ embeddings, texts := s.texts ++ texts }
    match metadata with
    | none => (none, s1)
    | some m =>
      if m.isEmpty then (none, s1)
      else if m.length ≠ texts.length then (some .dimensionMismatch, s1)
      else
        let md : Nat → Option MetaDict := fun k =>
          if s.texts.length ≤ k ∧ k - s.texts.length < m.length then
            List.get? m (k - s.texts.length)
          else s.metadata k
        (none, { s1 with metadata := md })

/-- `add_single_text(embedding, text, metadata=None)`.  `if metadata:` is
python truthiness: `None` and the empty dict both skip the assignment. -/
def add_single_text (s : LeaseVectorStore) (embedding : List ℝ) (text : String)
    (metadata : Option MetaDict) : LeaseVectorStore :=
  let s1 : LeaseVectorStore :=
    { s with embeddings := s.embeddings ++ [embedding], texts := s.texts ++ [text] }
  match metadata with
  | none => s1
  | some m =>
    if m.isEmpty then s1
    else { s1 with metadata := fun k => if k = s.texts.length then some m else s.metadata k }

/-- `update_text(index, new_text, new_embedding=None, new_metadata=None)`.
`if new_embedding:` / `if new_metadata:` are python truthiness tests, so an
empty list / empty dict also leaves the field unchanged. -/
def update_text (s : LeaseVectorStore) (index : Int) (newText : String)
    (newEmbedding : Option (List ℝ)) (newMetadata : Option MetaDict) :
    Option StoreErr × LeaseVectorStore :=
  if 0 ≤ index ∧ index < (s.texts.length : Int) then
    let i := index.toNat
    let s1 : LeaseVectorStore := { s with texts := s.texts.set i newText }
    let s2 : LeaseVectorStore :=
      match newEmbedding with
      | some e => if e.isEmpty then s1 else { s1 with embeddings := s1.embeddings.set i e }
      | none => s1
    let s3 : LeaseVectorStore :=
      match newMetadata with
      | some m =>
        if m.isEmpty then s2
        else { s2 with metadata := fun k => if k = i then some m else s2.metadata k }
      | none => s2
    (none, s3)
  else (some .indexOutOfRange, s)

/-- `clear()`. -/
def clear (_s : LeaseVectorStore) : LeaseVectorStore := init

/-- One iteration of the `remove_by_index` loop body at an in-range index:
delete position `i` from both lists, drop the metadata entry at `i`, shift
entries above `i` down by one and keep entries below `i` (the rebuilt
`new_metadata` dict, as a mapping). -/
def removeAt (s : LeaseVectorStore) (i : Nat) : LeaseVectorStore :=
  { embeddings := s.embeddings.eraseIdx i
    texts := s.texts.eraseIdx i
    metadata := fun k => if k < i then s.metadata k else s.metadata (k + 1) }

/-- `remove_by_index(indices)`: `sorted(set(indices), reverse=True)` then the
per-index loop, which skips any index that is out of range for the current
(already shrunk) lists. -/
def remove_by_index (s : LeaseVectorStore) (indices : List Int) : LeaseVectorStore :=
  (indices.dedup.insertionSort (fun a b => b ≤ a)).foldl
    (fun st idx =>
      if 0 ≤ idx ∧ idx < (st.texts.length : Int) then removeAt st idx.toNat else st)
    s

end LeaseVectorStore

/-- The pickled dict written by `save` / read by `load`.  Each field is
optional because `load` reads it with `store_data.get(key, default)`. -/
structure StoreData where
  embs : Option (List (List ℝ))
  txts : Option (List String)
  meta : Option (Nat → Option MetaDict)
  ver : Option String

/-- The content of a file at a path: either it does not unpickle into a
usable dict (`bad`, covering both unparsable bytes and non-dict pickles),
or it yields a `StoreData`. -/
inductive Blob where
  | bad
  | good (d : StoreData)

namespace LeaseVectorStore

/-- `save(path)`: the blob written to disk — the dict
`\x7b"embeddings": …, "texts": …, "metadata": …, "version": "1.0"\x7d`. -/
def save (s : LeaseVectorStore) : Blob :=
  .good { embs := some s.embeddings, txts := some s.texts,
          meta := some s.metadata, ver := some "1.0" }

/-- `load(path)`: `file = none` models a missing path
(`FileNotFoundError`); an unpicklable blob raises the generic wrapper
exception (modelled `corruptData`); otherwise every field is read with
`.get(key, default)` and the in-memory state is replaced wholesale. -/
def load (s : LeaseVectorStore) (file : Option Blob) :
    Option StoreErr × LeaseVectorStore :=
  match file with
  | none => (some .notFound, s)
  | some .bad => (some .corruptData, s)
  | some (.good d) =>
    (none, { embeddings := d.embs.getD [], texts := d.txts.getD [],
             metadata := d.meta.getD (fun _ => none) })

/-- The dot product `Σᵢ aᵢ·bᵢ` of two equally long vectors. -/
def dotList (a b : List ℝ) : ℝ := (List.zipWith (fun x y => x * y) a b).sum

/-- `sklearn.metrics.pairwise.cosine_similarity` of two rows:
`a·b / (‖a‖·‖b‖)`.  (Real division by zero is zero, which agrees with
sklearn's guarded normalisation of a zero row.) -/
noncomputable def cosineSim (a b : List ℝ) : ℝ :=
  dotList a b / (Real.sqrt (dotList a a) * Real.sqrt (dotList b b))

/-- `search(query_embedding, k)`: empty store short-circuits to `[]`;
a query row whose width differs from the matrix width makes sklearn raise
(`DimensionMismatch`); otherwise score every stored vector, argsort
ascending, reverse, take `k`, and build the result dicts. -/
noncomputable def search (s : LeaseVectorStore) (q : List ℝ) (k : Nat) :
    Except StoreErr (List SearchResult) :=
  match s.embeddings with
  | [] => .ok []
  | v :: _ =>
    if q.length ≠ v.length then .error .dimensionMismatch
    else
      let sims : List ℝ := s.embeddings.map (fun w => cosineSim q w)
      let order : List Nat :=
        ((List.range s.embeddings.length).insertionSort
          (fun i j => sims.getD i 0 ≤ sims.getD j 0)).reverse.take k
      .ok (order.map (fun i =>
        { text := s.texts.getD i "", score := sims.getD i 0,
          metadata := s.metadata i }))

/-- The `search_with_filter` accumulation loop: append each result passing
`filter_func(text, metadata)` (with `result.get("metadata", \x7b\x7d)`), and
break as soon as `len(filtered_results) >= k` — checked only after an
append, so `k = 0` still lets one passing result through. -/
def scanFilter (p : String → MetaDict → Bool) : Nat → List SearchResult → List SearchResult
  | _, [] => []
  | k, r :: rest =>
    if p r.text (r.metadata.getD []) then
      if k ≤ 1 then [r] else r :: scanFilter p (k - 1) rest
    else scanFilter p k rest

/-- `search_with_filter(query_embedding, k, filter_func)`: rank everything
via `search(q, k=len(self.texts))`, then either run the filter loop or
slice `[:k]`. -/
noncomputable def search_with_filter (s : LeaseVectorStore) (q : List ℝ) (k : Nat)
    (filterFunc : Option (String → MetaDict → Bool)) :
    Except StoreErr (List SearchResult) :=
  if s.embeddings.isEmpty then .ok []
  else
    match search s q s.texts.length with
    | .error e => .error e
    | .ok allResults =>
      match filterFunc with
      | some p => .ok (scanFilter p k allResults)
      | none => .ok (allResults.take k)

end LeaseVectorStore

/-! ## Knowledge-base router (`InternalKBAgent.classify_question`) -/

/-- Python's `str.lower()`, modelled characterwise (ASCII-faithful, and
structurally recursive so that concrete queries evaluate). -/
def lowerStr (s : String) : String := ⟨s.data.map Char.toLower⟩

/-- `startsWithChars n h`: `n` is a prefix of `h` (character lists). -/
def startsWithChars : List Char → List Char → Bool
  | [], _ => true
  | _ :: _, [] => false
  | c :: n, d :: h => c = d && startsWithChars n h

/-- Python's substring test `needle in hay` on character lists. -/
def containsChars (needle : List Char) : List Char → Bool
  | [] => needle.isEmpty
  | d :: h => startsWithChars needle (d :: h) || containsChars needle h

/-- Python `keyword in question_lower`: case work is done by lowering the
question only, exactly as in the source. -/
def keywordHit (keyword : String) (questionLower : String) : Bool :=
  containsChars keyword.data questionLower.data

/-- The `property_keywords` list of `classify_question`. -/
def property_keywords : List String :=
  ["property", "address", "floor", "suite", "rent", "sf", "square feet",
   "broker", "associate", "lease", "monthly", "annual", "gci"]

/-- The `legal_keywords` list of `classify_question`. -/
def legal_keywords : List String :=
  ["contract", "agreement", "clause", "term", "expiration", "renewal",
   "governing law", "non-compete", "exclusivity", "termination",
   "assignment", "license", "warranty", "insurance", "liability"]

/-- `sum(1 for keyword in property_keywords if keyword in question_lower)`. -/
def propertyMatches (question : String) : Nat :=
  property_keywords.countP (fun kw => keywordHit kw (lowerStr question))

/-- `sum(1 for keyword in legal_keywords if keyword in question_lower)`. -/
def legalMatches (question : String) : Nat :=
  legal_keywords.countP (fun kw => keywordHit kw (lowerStr question))

/-- `classify_question(question)`: strict majority of keyword hits, ties
(including the all-zero case) fall through to `'qa'`. -/
def classify_question (question : String) : String :=
  if legalMatches question < propertyMatches question then "property"
  else if propertyMatches question < legalMatches question then "master_clauses"
  else "qa"

/-! ## Spec-side definitions

Definitions in this section follow the words of the spec/claims (marked per
definition); they are compared against the source-derived definitions above. -/

/-- The spec's store invariant (§8): `len(store.texts) == len(store.vectors)`. -/
def LeaseVectorStore.lenInvariant (s : LeaseVectorStore) : Prop :=
  s.texts.length = s.embeddings.length

/-- A file whose parsed dict (if any) holds equally long text and vector
arrays — in particular any file written by `save` of a store satisfying the
invariant. -/
def balancedFile : Option Blob → Prop
  | some (.good d) => (d.txts.getD []).length = (d.embs.getD []).length
  | _ => True

/-- Modelled from the spec (claim C3): "ranking all records by similarity,
scanning them in ranked order and keeping exactly those records for which
`predicate(text, metadata)` holds until `k` are kept or the ranking is
exhausted" — i.e. filter the full ranking, then take `k`. -/
noncomputable def rankedThenFilteredSpec (s : LeaseVectorStore) (q : List ℝ) (k : Nat)
    (p : String → MetaDict → Bool) : Except StoreErr (List SearchResult) :=
  match s.search q s.texts.length with
  | .error e => .error e
  | .ok ranked => .ok ((ranked.filter (fun r => p r.text (r.metadata.getD []))).take k)

/-- Modelled from the spec (claim C4): the per-index deletion step —
out-of-range indices are silently ignored; otherwise the record is deleted,
the metadata entry exactly at the removed index is dropped, entries keyed
above it are remapped down by one and entries below are untouched. -/
def removeStepSpec (st : LeaseVectorStore) (idx : Int) : LeaseVectorStore :=
  if idx < 0 ∨ (st.texts.length : Int) ≤ idx then st
  else
    { embeddings := st.embeddings.eraseIdx idx.toNat
      texts := st.texts.eraseIdx idx.toNat
      metadata := fun k => if idx.toNat ≤ k then st.metadata (k + 1) else st.metadata k }

/-- Modelled from the spec (claim C4): "deduplicates the input, processes
the remaining indices from highest to lowest" — here rendered as the
reversal of an ascending sort of the deduplicated input, processed
sequentially by `removeStepSpec`. -/
def removeSpecC4 (s : LeaseVectorStore) (indices : List Int) : LeaseVectorStore :=
  go ((indices.dedup.insertionSort (fun a b => a ≤ b)).reverse) s
where
  go : List Int → LeaseVectorStore → LeaseVectorStore
    | [], st => st
    | i :: rest, st => go rest (removeStepSpec st i)

/-- Splits a character list into maximal alphanumeric words (accumulator
holds the current word reversed). -/
def splitWordsAux : List Char → List Char → List (List Char)
  | [], cur => if cur.isEmpty then [] else [cur.reverse]
  | c :: t, cur =>
    if c.isAlphanum then splitWordsAux t (c :: cur)
    else if cur.isEmpty then splitWordsAux t []
    else cur.reverse :: splitWordsAux t []

/-- The words of a string, lowercased. -/
def wordsOf (s : String) : List (List Char) :=
  splitWordsAux (lowerStr s).data []

/-- `startsWithSeq n h`: `n` is a prefix of `h` (decidable equality on the
elements). -/
def startsWithSeq {α : Type} [DecidableEq α] : List α → List α → Bool
  | [], _ => true
  | _ :: _, [] => false
  | c :: n, d :: h => c = d && startsWithSeq n h

/-- `containsSeq n h`: `n` occurs contiguously inside `h`. -/
def containsSeq {α : Type} [DecidableEq α] (needle : List α) : List α → Bool
  | [] => needle.isEmpty
  | d :: h => startsWithSeq needle (d :: h) || containsSeq needle h

/-- Modelled from the spec (claim C2): `keyword` occurs as a whole-word,
case-insensitive match in `question` — the keyword's word sequence appears
as a contiguous run of whole words of the question. -/
def wholeWordHit (keyword question : String) : Bool :=
  containsSeq (wordsOf keyword) (wordsOf question)

/-- Modelled from the spec (claim C2): the router under *whole-word*
keyword matching, with the same strict-majority selection and default. -/
def classifyWholeWordSpec (question : String) : String :=
  let p := property_keywords.countP (fun kw => wholeWordHit kw question)
  let l := legal_keywords.countP (fun kw => wholeWordHit kw question)
  if l < p then "property"
  else if p < l then "master_clauses"
  else "qa"

/-- The store's vector dimension: the width of the first stored row (`0` on
an empty store), which is what the numpy matrix shape check compares the
query against. -/
def LeaseVectorStore.dim (s : LeaseVectorStore) : Nat :=
  (s.embeddings.headD []).length

/-! ## Claim theorems -/

/-- C6: `save(path)` followed by a fresh store's `load(path)` reproduces
`texts`, `vectors` and `metadata` exactly (exact equality, which in
particular is within any floating-point tolerance). -/
theorem C6_save_load_roundtrip (s s0 : LeaseVectorStore) :
    s0.load (some s.save) =
      (none, { embeddings := s.embeddings, texts := s.texts, metadata := s.metadata }) :=
  rfl

/-- C7 counterexample: a parsable blob missing both "required" fields (the
vector array and the text array) does NOT make `load` fail with
`CorruptData` — it succeeds, defaulting every field. -/
theorem C7_missing_fields_counterexample :
    (LeaseVectorStore.init.load
        (some (.good { embs := none, txts := none, meta := none, ver := none }))).1 ≠
      some StoreErr.corruptData := by
  decide

/-- C7 (amended): `load` fails with `NotFound` when the path does not exist
and with `CorruptData` when the blob cannot be unpickled, leaving the state
untouched in both cases; every field of a parsable blob — including the
vector and text arrays — is optional and defaults to empty, and on success
the in-memory state is replaced wholesale, not merged. -/
theorem C7_load_error_model (s : LeaseVectorStore) (d : StoreData) :
    s.load none = (some .notFound, s) ∧
    s.load (some .bad) = (some .corruptData, s) ∧
    s.load (some (.good d)) =
      (none, { embeddings := d.embs.getD [], texts := d.txts.getD [],
               metadata := d.meta.getD (fun _ => none) }) :=
  ⟨rfl, rfl, rfl⟩

/-- C8: on a non-empty store, a query whose length differs from the store's
vector dimension makes `search` fail with `DimensionMismatch`. -/
theorem C8_search_dim_mismatch (s : LeaseVectorStore) (q : List ℝ) (k : Nat)
    (hne : s.embeddings ≠ []) (hdim : q.length ≠ s.dim) :
    s.search q k = .error .dimensionMismatch := by
  unfold LeaseVectorStore.search
  cases h : s.embeddings with
  | nil => exact absurd h hne
  | cons v rest =>
    have hv : q.length ≠ v.length := by
      simpa [LeaseVectorStore.dim, h] using hdim
    simp [hv]

/-- Witness for C8 at a concrete store of dimension 2 and a query of
length 1. -/
theorem C8_search_dim_mismatch_witness :
    (({ embeddings := [[1, 0]], texts := ["a"], metadata := fun _ => none } :
        LeaseVectorStore).embeddings ≠ []) ∧
    ([(1:ℝ)].length ≠
      ({ embeddings := [[1, 0]], texts := ["a"], metadata := fun _ => none } :
        LeaseVectorStore).dim) ∧
    ({ embeddings := [[1, 0]], texts := ["a"], metadata := fun _ => none } :
        LeaseVectorStore).search [1] 3 = .error .dimensionMismatch :=
  ⟨by simp, by simp [LeaseVectorStore.dim],
   C8_search_dim_mismatch _ _ 3 (by simp) (by simp [LeaseVectorStore.dim])⟩

/-- C10 counterexample: an *empty* metadata list whose length (0) differs
from `len(texts)` (1) does not raise at all — `if metadata:` is falsy —
while the claim, which quantifies over every metadata list of differing
length, predicts the mismatch error. -/
theorem C10_empty_metadata_counterexample :
    (0 ≠ ["a"].length) ∧
    (LeaseVectorStore.init.add_embeddings [[1]] ["a"] (some [])).1 = none :=
  ⟨by decide, by decide⟩

/-- C10 (amended): when `add_embeddings` is called with matching vector and
text counts but a *non-empty* metadata list of the wrong length, it raises
the mismatch error only after the vectors and texts have been appended: the
store is left mutated, with no metadata entry added. -/
theorem C10_add_batch_mutates_then_raises (s : LeaseVectorStore)
    (es : List (List ℝ)) (ts : List String) (m : List MetaDict)
    (hlen : es.length = ts.length) (hm : m ≠ []) (hmlen : m.length ≠ ts.length) :
    s.add_embeddings es ts (some m) =
      (some .dimensionMismatch,
       { s with embeddings := s.embeddings ++ es, texts := s.texts ++ ts }) := by
  have h1 : ¬ es.length ≠ ts.length := by simp [hlen]
  have h2 : m.isEmpty = false := by
    cases m with
    | nil => exact absurd rfl hm
    | cons a l => rfl
  simp [LeaseVectorStore.add_embeddings, h1, h2, hmlen]

/-- Witness for C10 (amended) at a one-record batch carrying two metadata
dicts. -/
theorem C10_add_batch_mutates_then_raises_witness :
    ([[(1:ℝ)]].length = ["a"].length) ∧
    (([[("k", "v")], []] : List MetaDict) ≠ []) ∧
    (([[("k", "v")], []] : List MetaDict).length ≠ ["a"].length) ∧
    LeaseVectorStore.init.add_embeddings [[1]] ["a"] (some [[("k", "v")], []]) =
      (some .dimensionMismatch,
       { LeaseVectorStore.init with
          embeddings := LeaseVectorStore.init.embeddings ++ [[1]],
          texts := LeaseVectorStore.init.texts ++ ["a"] }) :=
  ⟨by decide, by decide, by decide,
   C10_add_batch_mutates_then_raises _ _ _ _ (by decide) (by decide) (by decide)⟩

/-- Deleting at any index keeps the two parallel lists equally long (their
`eraseIdx` branches agree because the lengths agree). -/
theorem removeAt_lenInvariant (st : LeaseVectorStore) (h : st.lenInvariant) (i : Nat) :
    (st.removeAt i).lenInvariant := by
  unfold LeaseVectorStore.removeAt LeaseVectorStore.lenInvariant at *
  simp only [List.length_eraseIdx]
  rw [h]

/-- The `remove_by_index` loop preserves the length invariant. -/
theorem remove_fold_lenInvariant (l : List Int) : ∀ st : LeaseVectorStore, st.lenInvariant →
    (l.foldl (fun st idx =>
        if 0 ≤ idx ∧ idx < (st.texts.length : Int) then st.removeAt idx.toNat else st)
      st).lenInvariant := by
  induction l with
  | nil => exact fun st h => h
  | cons i rest ih =>
    intro st h
    simp only [List.foldl_cons]
    refine ih _ ?_
    by_cases hc : 0 ≤ i ∧ i < (st.texts.length : Int)
    · rw [if_pos hc]; exact removeAt_lenInvariant st h i.toNat
    · rw [if_neg hc]; exact h

/-- C5 counterexample: `load` of a parsable blob holding one vector and no
texts — an input the spec's own `load` contract admits — breaks the
invariant, so the claim as stated ("after every operation", load included)
fails. -/
theorem C5_unbalanced_load_counterexample :
    LeaseVectorStore.init.lenInvariant ∧
    ¬ ((LeaseVectorStore.init.load
          (some (.good { embs := some [[1]], txts := some [], meta := none,
                         ver := none }))).2).lenInvariant := by
  constructor
  · rfl
  · intro h
    simp [LeaseVectorStore.load, LeaseVectorStore.lenInvariant] at h

/-- C5 (amended): `len(texts) == len(vectors)` is preserved by every
operation — batch and single add, remove, update and clear, on success and
error paths alike — and by `load` whenever the loaded blob's text and
vector arrays are equally long (as in every blob written by `save`); an
unbalanced adversarial blob is the one exception. -/
theorem C5_len_invariant_preserved (s : LeaseVectorStore) (hs : s.lenInvariant) :
    (∀ es ts md, ((s.add_embeddings es ts md).2).lenInvariant) ∧
    (∀ e t md, (s.add_single_text e t md).lenInvariant) ∧
    (∀ idxs, (s.remove_by_index idxs).lenInvariant) ∧
    (∀ i t e md, ((s.update_text i t e md).2).lenInvariant) ∧
    (s.clear).lenInvariant ∧
    (∀ f, balancedFile f → ((s.load f).2).lenInvariant) := by
  unfold LeaseVectorStore.lenInvariant at hs
  refine ⟨?_, ?_, ?_, ?_, ?_, ?_⟩
  · intro es ts md
    unfold LeaseVectorStore.add_embeddings
    by_cases h : es.length ≠ ts.length
    · simpa [h, LeaseVectorStore.lenInvariant] using hs
    · have hlen : es.length = ts.length := by omega
      cases md with
      | none => simp [h, LeaseVectorStore.lenInvariant]; omega
      | some m =>
        by_cases hm : m.isEmpty
        · simp [h, hm, LeaseVectorStore.lenInvariant]; omega
        · by_cases hml : m.length ≠ ts.length
          · simp [h, hm, hml, LeaseVectorStore.lenInvariant]; omega
          · simp [h, hm, hml, LeaseVectorStore.lenInvariant]; omega
  · intro e t md
    unfold LeaseVectorStore.add_single_text
    cases md with
    | none => simp [LeaseVectorStore.lenInvariant]; omega
    | some m =>
      by_cases hm : m.isEmpty
      · simp [hm, LeaseVectorStore.lenInvariant]; omega
      · simp [hm, LeaseVectorStore.lenInvariant]; omega
  · intro idxs
    exact remove_fold_lenInvariant _ s hs
  · intro i t e md
    unfold LeaseVectorStore.update_text
    by_cases hc : 0 ≤ i ∧ i < (s.texts.length : Int)
    · cases e with
      | none =>
        cases md with
        | none => simp [hc, LeaseVectorStore.lenInvariant]; omega
        | some m =>
          by_cases hm : m.isEmpty
          · simp [hc, hm, LeaseVectorStore.lenInvariant]; omega
          · simp [hc, hm, LeaseVectorStore.lenInvariant]; omega
      | some ev =>
        by_cases he : ev.isEmpty
        · cases md with
          | none => simp [hc, he, LeaseVectorStore.lenInvariant]; omega
          | some m =>
            by_cases hm : m.isEmpty
            · simp [hc, he, hm, LeaseVectorStore.lenInvariant]; omega
            · simp [hc, he, hm, LeaseVectorStore.lenInvariant]; omega
        · cases md with
          | none => simp [hc, he, LeaseVectorStore.lenInvariant]; omega
          | some m =>
            by_cases hm : m.isEmpty
            · simp [hc, he, hm, LeaseVectorStore.lenInvariant]; omega
            · simp [hc, he, hm, LeaseVectorStore.lenInvariant]; omega
    · rw [if_neg hc]; exact hs
  · exact rfl
  · intro f hf
    match f with
    | none => exact hs
    | some .bad => exact hs
    | some (.good d) => exact hf

/-- Witness for C5 (amended) at the empty store. -/
theorem C5_len_invariant_preserved_witness :
    LeaseVectorStore.init.lenInvariant ∧
    (LeaseVectorStore.init.remove_by_index [0]).lenInvariant :=
  ⟨rfl, (C5_len_invariant_preserved LeaseVectorStore.init rfl).2.2.1 [0]⟩

/-- Sorting descending equals sorting ascending and reversing (both are
permutations of the input sorted for `fun a b => b ≤ a`, which is
antisymmetric). -/
theorem insertionSort_desc_eq_reverse_asc (l : List Int) :
    l.insertionSort (fun a b => b ≤ a) = (l.insertionSort (fun a b => a ≤ b)).reverse := by
  haveI h1 : IsTotal Int (fun a b => b ≤ a) := ⟨fun a b => le_total b a⟩
  haveI h2 : IsTrans Int (fun a b => b ≤ a) := ⟨fun a b c hab hbc => le_trans hbc hab⟩
  haveI h3 : IsAntisymm Int (fun a b => b ≤ a) := ⟨fun a b hab hba => le_antisymm hba hab⟩
  haveI h4 : IsTotal Int (fun a b => a ≤ b) := ⟨fun a b => le_total a b⟩
  haveI h5 : IsTrans Int (fun a b => a ≤ b) := ⟨fun a b c hab hbc => le_trans hab hbc⟩
  refine @List.eq_of_perm_of_sorted Int (fun a b => b ≤ a) h3 _ _ ?_ ?_ ?_
  · exact ((List.perm_insertionSort _ l).trans
      (List.perm_insertionSort (fun a b => a ≤ b) l).symm).trans
      (List.reverse_perm _).symm
  · exact List.sorted_insertionSort _ l
  · exact (List.pairwise_reverse).mpr (List.sorted_insertionSort (fun a b => a ≤ b) l)

/-- The loop body of `remove_by_index` coincides with the spec's per-index
deletion step. -/
theorem removeStep_code_eq_spec (st : LeaseVectorStore) (idx : Int) :
    (if 0 ≤ idx ∧ idx < (st.texts.length : Int) then st.removeAt idx.toNat else st) =
      removeStepSpec st idx := by
  unfold removeStepSpec LeaseVectorStore.removeAt
  by_cases hc : 0 ≤ idx ∧ idx < (st.texts.length : Int)
  · rw [if_pos hc, if_neg (by omega)]
    congr 1
    funext k
    by_cases hk : k < idx.toNat
    · rw [if_pos hk, if_neg (by omega)]
    · rw [if_neg hk, if_pos (by omega)]
  · rw [if_neg hc, if_pos (by omega)]

/-- `removeSpecC4.go` is a left fold of the spec step. -/
theorem removeSpec_go_eq_foldl (l : List Int) : ∀ st : LeaseVectorStore,
    removeSpecC4.go l st = l.foldl (fun st idx => removeStepSpec st idx) st := by
  induction l with
  | nil => exact fun st => rfl
  | cons i rest ih =>
    intro st
    simp only [removeSpecC4.go, List.foldl_cons]
    exact ih _

/-- C4: `remove_by_index` refines the claim's description — deduplicate the
input, process the surviving indices from highest to lowest, silently skip
out-of-range indices, and after each deletion drop the metadata entry at
the removed index, shift the entries above it down by one and keep the
entries below it. -/
theorem C4_remove_refines_spec (s : LeaseVectorStore) (indices : List Int) :
    s.remove_by_index indices = removeSpecC4 s indices := by
  unfold LeaseVectorStore.remove_by_index removeSpecC4
  rw [removeSpec_go_eq_foldl, ← insertionSort_desc_eq_reverse_asc]
  congr 1
  funext st idx
  exact removeStep_code_eq_spec st idx

/-- `remove_by_index` on a one-element list is a single guarded deletion. -/
theorem remove_by_index_singleton (st : LeaseVectorStore) (a : Int) :
    st.remove_by_index [a] =
      (if 0 ≤ a ∧ a < (st.texts.length : Int) then st.removeAt a.toNat else st) := by
  unfold LeaseVectorStore.remove_by_index
  simp [List.insertionSort, List.orderedInsert]

/-- C9: for valid pre-removal indices `j < i`, `remove([i])` then
`remove([j])` reaches the same final store state as the single call
`remove([i, j])`. -/
theorem C9_remove_sequential_eq_batch (s : LeaseVectorStore) (i j : Int)
    (h0 : 0 ≤ j) (hji : j < i) (hlen : i < (s.texts.length : Int)) :
    (s.remove_by_index [i]).remove_by_index [j] = s.remove_by_index [i, j] := by
  have hi0 : (0:Int) ≤ i := le_trans h0 (le_of_lt hji)
  have hiN : i.toNat < s.texts.length := by omega
  have hlen2 : ((s.texts.eraseIdx i.toNat).length : Int) = (s.texts.length : Int) - 1 := by
    rw [List.length_eraseIdx, if_pos hiN]
    omega
  have hj2 : j < (((s.removeAt i.toNat).texts).length : Int) := by
    show j < ((s.texts.eraseIdx i.toNat).length : Int)
    omega
  have hstep1 : s.remove_by_index [i] = s.removeAt i.toNat := by
    rw [remove_by_index_singleton,
      if_pos (show (0:Int) ≤ i ∧ i < (s.texts.length : Int) from ⟨hi0, hlen⟩)]
  have hstep2 : (s.removeAt i.toNat).remove_by_index [j] =
      (s.removeAt i.toNat).removeAt j.toNat := by
    rw [remove_by_index_singleton,
      if_pos (show (0:Int) ≤ j ∧ j < (((s.removeAt i.toNat).texts).length : Int) from
        ⟨h0, hj2⟩)]
  have hbatch : s.remove_by_index [i, j] = (s.removeAt i.toNat).removeAt j.toNat := by
    unfold LeaseVectorStore.remove_by_index
    rw [List.dedup_cons_of_not_mem (by simp; omega)]
    simp only [List.dedup_cons_of_not_mem (List.not_mem_nil j), List.dedup_nil]
    simp only [List.insertionSort, List.orderedInsert]
    rw [if_pos (le_of_lt hji)]
    simp only [List.foldl_cons, List.foldl_nil]
    rw [if_pos (show (0:Int) ≤ i ∧ i < (s.texts.length : Int) from ⟨hi0, hlen⟩),
      if_pos (show (0:Int) ≤ j ∧ j < (((s.removeAt i.toNat).texts).length : Int) from
        ⟨h0, hj2⟩)]
  rw [hstep1, hstep2, hbatch]

/-- Witness for C9 on a three-record store with `i = 2`, `j = 0`. -/
theorem C9_remove_sequential_eq_batch_witness :
    ((0:Int) ≤ 0) ∧ ((0:Int) < 2) ∧
    ((2:Int) < (({ embeddings := [[1], [2], [3]], texts := ["a", "b", "c"],
                   metadata := fun _ => none } : LeaseVectorStore).texts.length : Int)) ∧
    (({ embeddings := [[1], [2], [3]], texts := ["a", "b", "c"],
        metadata := fun _ => none } : LeaseVectorStore).remove_by_index
          [2]).remove_by_index [0] =
      ({ embeddings := [[1], [2], [3]], texts := ["a", "b", "c"],
         metadata := fun _ => none } : LeaseVectorStore).remove_by_index [2, 0] :=
  ⟨by decide, by decide, by decide,
   C9_remove_sequential_eq_batch _ 2 0 (by decide) (by decide) (by decide)⟩

/-- C2 counterexample: on the query "current" the source router counts a
substring hit ("rent" occurs inside "current") and routes to "property",
while whole-word matching — what the claim states — finds no hit in any
corpus, a tie, hence the default corpus. -/
theorem C2_whole_word_counterexample :
    classify_question "current" ≠ classifyWholeWordSpec "current" := by decide

/-- C2 (amended): the router counts, for each corpus, how many of its
keywords occur as case-insensitive *substring* matches in the query (not
whole-word matches); the corpus with the strictly highest count is
selected, and on any tie — including all-zero — the default corpus "qa" is
selected; in particular the spec's two scenario queries route to
"property" and to the default. -/
theorem C2_router_substring_matching (q : String) :
    (classify_question q = "property" ↔ legalMatches q < propertyMatches q) ∧
    (classify_question q = "master_clauses" ↔ propertyMatches q < legalMatches q) ∧
    (classify_question q = "qa" ↔ propertyMatches q = legalMatches q) ∧
    classify_question "what is the rent on the floor" = "property" ∧
    classify_question "hello" = "qa" := by
  have hA : ("master_clauses" : String) ≠ "property" := by decide
  have hB : ("qa" : String) ≠ "property" := by decide
  have hC : ("property" : String) ≠ "master_clauses" := by decide
  have hD : ("qa" : String) ≠ "master_clauses" := by decide
  have hE : ("property" : String) ≠ "qa" := by decide
  have hF : ("master_clauses" : String) ≠ "qa" := by decide
  refine ⟨?_, ?_, ?_, by decide, by decide⟩ <;>
    unfold classify_question <;>
    by_cases h1 : legalMatches q < propertyMatches q
  · rw [if_pos h1]; exact iff_of_true rfl h1
  · rw [if_neg h1]
    by_cases h2 : propertyMatches q < legalMatches q
    · rw [if_pos h2]; exact iff_of_false hA h1
    · rw [if_neg h2]; exact iff_of_false hB h1
  · rw [if_pos h1]; exact iff_of_false hC (by omega)
  · rw [if_neg h1]
    by_cases h2 : propertyMatches q < legalMatches q
    · rw [if_pos h2]; exact iff_of_true rfl h2
    · rw [if_neg h2]; exact iff_of_false hD (by omega)
  · rw [if_pos h1]; exact iff_of_false hE (by omega)
  · rw [if_neg h1]
    by_cases h2 : propertyMatches q < legalMatches q
    · rw [if_pos h2]; exact iff_of_false hF (by omega)
    · rw [if_neg h2]; exact iff_of_true rfl (by omega)

/-- For any positive budget the `search_with_filter` loop computes
filter-then-take: the first `k` ranked results passing the predicate. -/
theorem scanFilter_eq_filter_take (p : String → MetaDict → Bool) :
    ∀ (l : List SearchResult) (k : Nat), 1 ≤ k →
      LeaseVectorStore.scanFilter p k l =
        (l.filter (fun r => p r.text (r.metadata.getD []))).take k
  | [], k, _ => by simp [LeaseVectorStore.scanFilter]
  | r :: rest, k, hk => by
    unfold LeaseVectorStore.scanFilter
    by_cases hp : p r.text (r.metadata.getD [])
    · have hf : List.filter (fun x : SearchResult => p x.text (x.metadata.getD []))
          (r :: rest) =
          r :: List.filter (fun x : SearchResult => p x.text (x.metadata.getD [])) rest := by
        simp [List.filter_cons, hp]
      rw [if_pos hp, hf]
      by_cases hk1 : k ≤ 1
      · have hk' : k = 1 := le_antisymm hk1 hk
        subst hk'
        rw [if_pos (le_refl 1)]
        rfl
      · rw [if_neg hk1, scanFilter_eq_filter_take p rest (k - 1) (by omega)]
        obtain ⟨n, rfl⟩ : ∃ n, k = n + 2 := ⟨k - 2, by omega⟩
        rw [List.take_succ_cons]
        rfl
    · have hf : List.filter (fun x : SearchResult => p x.text (x.metadata.getD []))
          (r :: rest) =
          List.filter (fun x : SearchResult => p x.text (x.metadata.getD [])) rest := by
        simp [List.filter_cons, hp]
      rw [if_neg hp, hf, scanFilter_eq_filter_take p rest k hk]

/-- C3 counterexample: with `k = 0` and an all-passing predicate on a
one-record store, the loop still emits one result (the `>= k` break fires
only after an append), while the claim's rank-filter-take semantics yields
the empty list. -/
theorem C3_k_zero_counterexample :
    LeaseVectorStore.search_with_filter
        { embeddings := [[1]], texts := ["a"], metadata := fun _ => none } [1] 0
        (some (fun _ _ => true)) ≠
      rankedThenFilteredSpec
        { embeddings := [[1]], texts := ["a"], metadata := fun _ => none } [1] 0
        (fun _ _ => true) := by
  intro h
  have h1 : LeaseVectorStore.search_with_filter
      { embeddings := [[1]], texts := ["a"], metadata := fun _ => none } [1] 0
      (some (fun _ _ => true)) =
        .ok [{ text := "a", score := LeaseVectorStore.cosineSim [1] [1],
               metadata := none }] := rfl
  have h2 : rankedThenFilteredSpec
      { embeddings := [[1]], texts := ["a"], metadata := fun _ => none } [1] 0
      (fun _ _ => true) = .ok [] := rfl
  rw [h1, h2] at h
  simp at h

/-- C3 (amended): for every store, query, predicate and every `k ≥ 1`,
`search_with_filter` equals ranking *all* records by similarity and then
keeping, in ranked order, exactly the records passing
`predicate(text, metadata)` until `k` are kept or the ranking is
exhausted; excluded records do not count against the budget and kept
results stay in similarity order.  (`k = 0` is the one divergence, see the
counterexample.) -/
theorem C3_filter_is_rank_then_filter (s : LeaseVectorStore) (q : List ℝ) (k : Nat)
    (p : String → MetaDict → Bool) (hk : 1 ≤ k) :
    s.search_with_filter q k (some p) = rankedThenFilteredSpec s q k p := by
  unfold LeaseVectorStore.search_with_filter rankedThenFilteredSpec
  by_cases he : s.embeddings.isEmpty
  · have hnil : s.embeddings = [] := List.isEmpty_iff.mp he
    rw [if_pos he]
    unfold LeaseVectorStore.search
    rw [hnil]
    simp
  · rw [if_neg he]
    cases hres : s.search q s.texts.length with
    | error e => rfl
    | ok allResults =>
      exact congrArg Except.ok (scanFilter_eq_filter_take p allResults k hk)

/-- Witness for C3 (amended) at `k = 1` on a one-record store. -/
theorem C3_filter_is_rank_then_filter_witness :
    1 ≤ 1 ∧
    LeaseVectorStore.search_with_filter
        { embeddings := [[1]], texts := ["a"], metadata := fun _ => none } [1] 1
        (some (fun _ _ => true)) =
      rankedThenFilteredSpec
        { embeddings := [[1]], texts := ["a"], metadata := fun _ => none } [1] 1
        (fun _ _ => true) :=
  ⟨le_refl 1, C3_filter_is_rank_then_filter _ _ 1 _ (le_refl 1)⟩

/-- Sorting a two-element list whose first element is related to the
second keeps the order. -/
theorem insertionSort_pair_of_rel {α : Type} (r : α → α → Prop) [DecidableRel r]
    (a b : α) (h : r a b) : List.insertionSort r [a, b] = [a, b] := by
  simp [List.insertionSort, List.orderedInsert, h]

/-- C1 (evaluation at the failing input): on a store holding two identical
vectors, searching with that same vector gives both records the same
cosine score, and the source's ascending-argsort-then-reverse emits the
LATER insertion position first — texts come back ["b", "a"] — whereas the
claim requires the earlier position first (["a", "b"]). -/
theorem C1_equal_scores_later_position_first :
    LeaseVectorStore.search
        { embeddings := [[1], [1]], texts := ["a", "b"], metadata := fun _ => none }
        [1] 2 =
      .ok [{ text := "b", score := LeaseVectorStore.cosineSim [1] [1], metadata := none },
           { text := "a", score := LeaseVectorStore.cosineSim [1] [1],
             metadata := none }] := by
  have hrel : LeaseVectorStore.cosineSim [1] [1] ≤ LeaseVectorStore.cosineSim [1] [1] :=
    le_refl _
  have key : List.insertionSort
      (fun i j : Nat =>
        ([LeaseVectorStore.cosineSim [1] [1], LeaseVectorStore.cosineSim [1] [1]].getD i 0 ≤
         [LeaseVectorStore.cosineSim [1] [1], LeaseVectorStore.cosineSim [1] [1]].getD j 0))
      [0, 1] = [0, 1] :=
    insertionSort_pair_of_rel _ 0 1 hrel
  have expand : LeaseVectorStore.search
      { embeddings := [[1], [1]], texts := ["a", "b"], metadata := fun _ => none } [1] 2 =
      Except.ok ((((List.range 2).insertionSort
        (fun i j : Nat =>
          ([LeaseVectorStore.cosineSim [1] [1],
            LeaseVectorStore.cosineSim [1] [1]].getD i 0 ≤
           [LeaseVectorStore.cosineSim [1] [1],
            LeaseVectorStore.cosineSim [1] [1]].getD j 0))).reverse.take 2).map
        (fun i =>
          { text := ["a", "b"].getD i "",
            score := [LeaseVectorStore.cosineSim [1] [1],
                      LeaseVectorStore.cosineSim [1] [1]].getD i 0,
            metadata := none })) := rfl
  rw [expand, show List.range 2 = [0, 1] from rfl, key]
  rfl
